import Mathlib

set_option maxRecDepth 20000

/-!
Shallow embedding of the rendering core of `absolutris` (src/absolutris.py):
the dirty-rectangle tracker (`Rectlist`), the grid cell (`Tile`), the grid
(`Playfield`) with its blit / clear / piece-placement operations, and the
piece generator seam.  Images and screen rectangles are opaque handles.
-/

/-- Images (decoded pygame surfaces) are opaque handles. -/
abbrev Img := Nat

/-- Screen rectangles are opaque handles; a tile's blit rectangle moved by its
absolute offset is identified with the tile's stored absolute rectangle. -/
abbrev Rect := Nat

/-- `Rectlist` (absolutris.py, lines 77-103): a list that remembers its highest
member count (`max_items`) and how many items were added since the last reset
(`added_items`). -/
structure Rectlist where
  items : List Rect
  max_items : Nat
  added_items : Nat
deriving DecidableEq, Repr

/-- `Rectlist.__init__`: empty list, both counters zero. -/
def Rectlist.new : Rectlist := ⟨[], 0, 0⟩

/-- `update_max` (line 86): raise `max_items` to the current length if below it. -/
def Rectlist.update_max (r : Rectlist) : Rectlist :=
  if r.max_items < r.items.length then { r with max_items := r.items.length } else r

/-- `appendr` (line 89): append one item, bump `added_items`, update the peak. -/
def Rectlist.appendr (r : Rectlist) (item : Rect) : Rectlist :=
  ({ r with items := r.items ++ [item],
            added_items := r.added_items + 1 }).update_max

/-- `extendr` (line 93): append a batch, bump `added_items` by its length, then
update the peak once. -/
def Rectlist.extendr (r : Rectlist) (itr : List Rect) : Rectlist :=
  ({ r with items := r.items ++ itr,
            added_items := r.added_items + itr.length }).update_max

/-- `reset_max` (line 97). -/
def Rectlist.reset_max (r : Rectlist) : Rectlist := { r with max_items := 0 }

/-- `reset_added` (line 99). -/
def Rectlist.reset_added (r : Rectlist) : Rectlist := { r with added_items := 0 }

/-- `reset` (line 101). -/
def Rectlist.reset (r : Rectlist) : Rectlist := r.reset_max.reset_added

/-- The per-frame drain (run_game, lines 274-277): `pygame.display.update`
consumes all pending rectangles in first-added order, then the loop deletes
them one by one, leaving the list empty and the counters untouched. -/
def Rectlist.drain (r : Rectlist) : List Rect × Rectlist :=
  (r.items, { r with items := [] })

/-- `Tile` (lines 106-116): a sub-surface of the game window (modelled by its
absolute rectangle) plus the `hold` history of every image blitted onto it. -/
structure Tile where
  rect : Rect
  hold : List Img
deriving DecidableEq, Repr

instance : Inhabited Tile := ⟨⟨0, []⟩⟩

/-- `Tile.is_empty` (line 113): `not bool(self.hold[1:])`. -/
def Tile.is_empty (t : Tile) : Bool := (t.hold.drop 1).isEmpty

/-- `Tile.get_rect` (line 115): the surface rectangle moved by the absolute
offset, i.e. the stored absolute rectangle. -/
def Tile.get_rect (t : Tile) : Rect := t.rect

/-- One unit cell of a tetromino, relative to the piece's local origin. -/
structure Mino where
  row : Int
  column : Int
deriving DecidableEq, Repr

/-- A tetromino: its minoes for the current rotation, its spawn offset and its
image (iterating the piece yields its minoes). -/
structure Tetromino where
  minoes : List Mino
  spawn_offset : Int
  img : Img
deriving DecidableEq, Repr

/-- `Playfield` (lines 119-168): a `rows × columns` object array of tiles (the
shape is carried explicitly, as a numpy ndarray carries its shape), the
background image, the shared rectangle tracker and the spawn anchor. -/
structure Playfield where
  empty_tile_img : Img
  shape_rows : Nat
  shape_columns : Nat
  tile_array : List (List Tile)
  rects_to_update : Rectlist
  spawn_row : Int
  spawn_column : Int
deriving DecidableEq, Repr

instance : Inhabited Playfield := ⟨⟨0, 0, 0, [], Rectlist.new, 0, 0⟩⟩

/-- numpy basic indexing on one axis of size `size`: an index in `[0, size)` is
taken as is, an index in `[-size, 0)` wraps to `size + i`, anything else raises
`IndexError`. -/
def npIndex (size : Nat) (i : Int) : Option Nat :=
  if 0 ≤ i ∧ i < (size : Int) then some i.toNat
  else if -(size : Int) ≤ i ∧ i < 0 then some (i + size).toNat
  else none

/-- `self.tile_array[row, column]` for in-range indices. -/
def Playfield.getTile (pf : Playfield) (row column : Nat) : Tile :=
  (pf.tile_array.getD row []).getD column default

/-- Replace the tile stored under `[row, column]`. -/
def Playfield.setTile (pf : Playfield) (row column : Nat) (t : Tile) : Playfield :=
  { pf with
      tile_array := pf.tile_array.set row ((pf.tile_array.getD row []).set column t) }

/-- The body of `blyt` (lines 139-149) once the numpy indices resolved: blit
`srf` onto the tile under `[row, column]` (its blit rectangle, moved by the
tile surface's absolute offset, is the tile's absolute rectangle), track that
rectangle, and append `srf` to the tile's hold. -/
def Playfield.blytCore (pf : Playfield) (column row : Nat) (srf : Img) : Playfield :=
  let tile := pf.getTile row column
  { pf.setTile row column { tile with hold := tile.hold ++ [srf] } with
      rects_to_update := pf.rects_to_update.appendr tile.rect }

/-- `blyt` (lines 139-149): `self.tile_array[row, column]` resolves both numpy
indices first (raising `IndexError` before any mutation when one is out of
range), then blits, tracks the rectangle and appends to the hold. -/
def Playfield.blyt (pf : Playfield) (column row : Int) (srf : Img) : Except String Playfield :=
  match npIndex pf.shape_rows row, npIndex pf.shape_columns column with
  | some r, some c => .ok (pf.blytCore c r srf)
  | _, _ => .error "IndexError"

/-- `np.asarray(list(sequence), dtype=object).reshape(rows, columns)`, the
row-major split of the flat tile sequence into `rows` rows of `columns`. -/
def chunkRows (seq : List Tile) (rows columns : Nat) : List (List Tile) :=
  match rows with
  | 0 => []
  | r + 1 => seq.take columns :: chunkRows (seq.drop columns) r columns

/-- `blit_initial_images` (lines 134-138): blit `img` onto every tile, row by
row, column by column. -/
def Playfield.blit_initial_images (pf : Playfield) (img : Img) : Playfield :=
  (List.range pf.shape_rows).foldl
    (fun a row =>
      (List.range pf.shape_columns).foldl (fun b column => b.blytCore column row img) a)
    pf

/-- `Playfield.__init__` (lines 120-133): numpy `reshape(rows, columns)` raises
(`ValueError`, the spec's `ShapeMismatch`) unless the sequence length equals
`rows * columns`; on success the flat sequence becomes the row-major grid and
the background image is blitted onto every tile. -/
def Playfield.init (rows columns : Nat) (sequence : List Tile) (img : Img)
    (rects_to_update : Rectlist) (spawn_row spawn_column : Int) :
    Except String Playfield :=
  if sequence.length = rows * columns then
    .ok (Playfield.blit_initial_images
      { empty_tile_img := img, shape_rows := rows, shape_columns := columns,
        tile_array := chunkRows sequence rows columns,
        rects_to_update := rects_to_update,
        spawn_row := spawn_row, spawn_column := spawn_column } img)
  else .error "ShapeMismatch"

/-- The loop body of `clear_all_tiles` (lines 153-157) for one cell: if the
tile is not empty, reset its hold and re-blit the background image. -/
def Playfield.clearTile (pf : Playfield) (column row : Nat) : Playfield :=
  if (pf.getTile row column).is_empty then pf
  else
    let pf1 := pf.setTile row column { pf.getTile row column with hold := [] }
    pf1.blytCore column row pf1.empty_tile_img

/-- `clear_all_tiles` (lines 150-157): for every cell in row-major order, clear
the tile when it holds something and re-blit the background image onto it. -/
def Playfield.clear_all_tiles (pf : Playfield) : Playfield :=
  (List.range pf.shape_rows).foldl
    (fun a row =>
      (List.range pf.shape_columns).foldl (fun b column => b.clearTile column row) a)
    pf

/-- `draw_tetromino` (lines 158-168): for every mino of the piece, blit the
piece's image at `(spawn_column + mino.column, spawn_row + mino.row +
spawn_offset)`; an `IndexError` raised by a blit propagates. -/
def Playfield.draw_tetromino (pf : Playfield) (tetromino : Tetromino) :
    Except String Playfield :=
  tetromino.minoes.foldlM
    (fun a mino =>
      a.blyt (a.spawn_column + mino.column) (a.spawn_row + mino.row + tetromino.spawn_offset)
        tetromino.img)
    pf

/-- A blit sequence: fold `blytCore` over a list of `(row, column)` cells with
a fixed image.  `blit_initial_images`, `draw_tetromino` (on success) and the
clear loop reduce to folds of this shape. -/
def Playfield.blytSeq (pf : Playfield) (cells : List (Nat × Nat)) (img : Img) : Playfield :=
  cells.foldl (fun a rc => a.blytCore rc.2 rc.1 img) pf

/-- A clear sequence: fold the clear-loop body over a list of `(row, column)`
cells; `clear_all_tiles` reduces to this fold over the row-major cell list. -/
def Playfield.clearSeq (pf : Playfield) (cells : List (Nat × Nat)) : Playfield :=
  cells.foldl (fun a rc => a.clearTile rc.2 rc.1) pf

/-- All cells of a `rows × columns` grid in row-major order. -/
def rowMajorCells (rows columns : Nat) : List (Nat × Nat) :=
  (List.range rows).flatMap (fun r => (List.range columns).map (fun c => (r, c)))

/-- Multiplicity of a cell in a cell list. -/
def cellCount (rc : Nat × Nat) (cells : List (Nat × Nat)) : Nat :=
  (cells.filter (fun x => decide (x = rc))).length

/-- The pre-blit playfield assembled by `__init__` right after the `reshape`,
before `blit_initial_images` runs. -/
def initBase (rows columns : Nat) (sequence : List Tile) (img : Img)
    (rects_to_update : Rectlist) (spawn_row spawn_column : Int) : Playfield :=
  { empty_tile_img := img, shape_rows := rows, shape_columns := columns,
    tile_array := chunkRows sequence rows columns,
    rects_to_update := rects_to_update,
    spawn_row := spawn_row, spawn_column := spawn_column }

/-- The grid cell a mino is blitted to by `draw_tetromino`:
`(spawn_row + mino.row + spawn_offset, spawn_column + mino.column)`. -/
def minoTarget (pf : Playfield) (t : Tetromino) (m : Mino) : Int × Int :=
  (pf.spawn_row + m.row + t.spawn_offset, pf.spawn_column + m.column)

/-- The mino targets as natural-number grid cells (meaningful when they are
in bounds). -/
def natTargets (pf : Playfield) (t : Tetromino) : List (Nat × Nat) :=
  t.minoes.map (fun m => ((pf.spawn_row + m.row + t.spawn_offset).toNat,
    (pf.spawn_column + m.column).toNat))

/-- Every mino of the piece lands strictly inside the grid. -/
def targetsInBounds (pf : Playfield) (t : Tetromino) : Prop :=
  ∀ m ∈ t.minoes,
    0 ≤ pf.spawn_row + m.row + t.spawn_offset ∧
    pf.spawn_row + m.row + t.spawn_offset < (pf.shape_rows : Int) ∧
    0 ≤ pf.spawn_column + m.column ∧
    pf.spawn_column + m.column < (pf.shape_columns : Int)

/-- Shape well-formedness: the tile array really is `shape_rows` rows of
`shape_columns` tiles (what `reshape` guarantees). -/
def Playfield.wf (pf : Playfield) : Prop :=
  pf.tile_array.length = pf.shape_rows ∧
    ∀ rowList ∈ pf.tile_array, rowList.length = pf.shape_columns

/-- Modelled from the spec: `generator.py` is not part of the observed source
(only its caller at absolutris.py line 271 is).  The `randint06` random source
is a uniform integer source on the inclusive range `[0, 6]`, realised as a
concrete linear-congruential generator: each draw steps the state and reduces
it modulo 7. -/
def randint06 (state : Nat) : Nat × Nat :=
  ((1103515245 * state + 12345) % 2 ^ 31 % 7, (1103515245 * state + 12345) % 2 ^ 31)

/-- Modelled from the spec: the `no_rules` supply policy simply forwards the
random source's draw, with no memory. -/
def no_rules (source : Nat → Nat × Nat) (state : Nat) : Nat × Nat := source state

/-- Modelled from the spec: the `Unpacker` composes a supply policy with a
random source and preserves the source's state across draws.  This is the
configuration built at absolutris.py line 271 (`no_rules` over `randint06`). -/
structure Unpacker where
  state : Nat
deriving DecidableEq, Repr

/-- Modelled from the spec: `spawn_next` invokes the supply policy against the
random source and returns the variant index together with the advanced
generator. -/
def Unpacker.spawn_next (u : Unpacker) : Nat × Unpacker :=
  ((no_rules randint06 u.state).1, ⟨(no_rules randint06 u.state).2⟩)

/-- The list of variant indices produced by `n` successive `spawn_next` calls. -/
def Unpacker.draws : Unpacker → Nat → List Nat
  | _, 0 => []
  | u, n + 1 => (u.spawn_next).1 :: (u.spawn_next).2.draws n

/-- Modelled from the spec: `tetrominoes.py` is not part of the observed
source; the I piece has minoes `(0,0),(0,1),(0,2),(0,3)` and spawn offset 0. -/
def tetromino_I (img : Img) : Tetromino :=
  { minoes := [⟨0, 0⟩, ⟨0, 1⟩, ⟨0, 2⟩, ⟨0, 3⟩], spawn_offset := 0, img := img }

/-- Playfield states reachable in the program: construction from fresh tiles
(`Tile.__init__` sets `hold = []`), then any sequence of successful blits,
whole-field clears and piece placements. -/
inductive Reach : Playfield → Prop where
  | init : ∀ rows columns sequence img rl sr sc pf,
      (∀ t ∈ sequence, t.hold = []) →
      Playfield.init rows columns sequence img rl sr sc = .ok pf → Reach pf
  | blyt : ∀ pf column row img pf',
      Reach pf → pf.blyt column row img = .ok pf' → Reach pf'
  | clear : ∀ pf, Reach pf → Reach pf.clear_all_tiles
  | draw : ∀ pf t pf',
      Reach pf → pf.draw_tetromino t = .ok pf' → Reach pf'

/-- The background invariant: a well-formed grid in which every tile's hold is
non-empty and starts with the background image. -/
def Playfield.bgInv (pf : Playfield) : Prop :=
  pf.wf ∧ ∀ row column, row < pf.shape_rows → column < pf.shape_columns →
    (pf.getTile row column).hold ≠ [] ∧
    (pf.getTile row column).hold.head? = some pf.empty_tile_img

/-- A tracker operation between two peak-resets: a single tracked append, a
batch extend, or a per-frame drain. -/
inductive TrackOp where
  | append (item : Rect)
  | extend (itr : List Rect)
  | drainOp
deriving DecidableEq, Repr

/-- Apply a tracker operation to a tracker state. -/
def TrackOp.apply (op : TrackOp) (r : Rectlist) : Rectlist :=
  match op with
  | .append item => r.appendr item
  | .extend itr => r.extendr itr
  | .drainOp => r.drain.2

/-- `n` freshly constructed tiles (`Tile.__init__` sets `hold = []`), with
distinct surfaces. -/
def freshTiles (n : Nat) : List Tile :=
  (List.range n).map (fun k => ⟨k, []⟩)

/-- A concrete 4 × 8 playfield with spawn anchor (3, 4), as built by
`setup_game_window` from fresh tiles and a fresh tracker. -/
def pfI : Playfield :=
  match Playfield.init 4 8 (freshTiles 32) 9 Rectlist.new 3 4 with
  | .ok pf => pf
  | .error _ => default

/-- A concrete 2 × 2 playfield built from fresh tiles and a fresh tracker. -/
def pfC2 : Playfield :=
  match Playfield.init 2 2 (freshTiles 4) 9 Rectlist.new 0 0 with
  | .ok pf => pf
  | .error _ => default

/-! ## Basic lemmas about the tracker -/

theorem Rectlist.appendr_eq (r : Rectlist) (x : Rect) :
    r.appendr x =
      ⟨r.items ++ [x], max r.max_items (r.items.length + 1), r.added_items + 1⟩ := by
  simp only [Rectlist.appendr, Rectlist.update_max]
  split <;> simp_all <;> omega

theorem Rectlist.extendr_eq (r : Rectlist) (itr : List Rect) :
    r.extendr itr =
      ⟨r.items ++ itr, max r.max_items (r.items.length + itr.length),
        r.added_items + itr.length⟩ := by
  simp only [Rectlist.extendr, Rectlist.update_max]
  split <;> simp_all <;> omega

/-! ## Field-preservation and cell-access lemmas for the grid operations -/

theorem getD_set_self {α : Type} (l : List α) (i : Nat) (a d : α) (h : i < l.length) :
    (l.set i a).getD i d = a := by
  rw [List.getD_eq_getElem?_getD, List.getElem?_set_self h]; rfl

theorem getD_set_ne {α : Type} (l : List α) (i j : Nat) (a d : α) (h : i ≠ j) :
    (l.set i a).getD j d = l.getD j d := by
  rw [List.getD_eq_getElem?_getD, List.getElem?_set_ne h, ← List.getD_eq_getElem?_getD]

theorem Playfield.getTile_setTile (pf : Playfield) (row column : Nat) (t : Tile)
    (hwf : pf.wf) (hr : row < pf.shape_rows) (hc : column < pf.shape_columns)
    (r' c' : Nat) :
    (pf.setTile row column t).getTile r' c' =
      if r' = row ∧ c' = column then t else pf.getTile r' c' := by
  obtain ⟨hlen, hrows⟩ := hwf
  have hrlt : row < pf.tile_array.length := by omega
  have hrowD : pf.tile_array.getD row [] = pf.tile_array[row] := by
    simp [List.getD_eq_getElem?_getD, List.getElem?_eq_getElem hrlt]
  have hrowlen : (pf.tile_array[row]).length = pf.shape_columns :=
    hrows _ (List.getElem_mem hrlt)
  unfold Playfield.getTile
  have harr : (pf.setTile row column t).tile_array
      = pf.tile_array.set row ((pf.tile_array.getD row []).set column t) := rfl
  rw [harr]
  by_cases hre : r' = row
  · subst hre
    rw [getD_set_self _ _ _ _ hrlt]
    by_cases hce : c' = column
    · subst hce
      rw [getD_set_self _ _ _ _ (by rw [hrowD, hrowlen]; exact hc)]
      simp
    · rw [getD_set_ne _ _ _ _ _ (fun h => hce h.symm)]
      simp [hce]
  · rw [getD_set_ne _ _ _ _ _ (fun h => hre h.symm)]
    simp [hre]

theorem Playfield.setTile_wf (pf : Playfield) (row column : Nat) (t : Tile)
    (hwf : pf.wf) (hr : row < pf.shape_rows) : (pf.setTile row column t).wf := by
  obtain ⟨hlen, hrows⟩ := hwf
  have hrlt : row < pf.tile_array.length := by omega
  have hrowD : pf.tile_array.getD row [] = pf.tile_array[row] := by
    simp [List.getD_eq_getElem?_getD, List.getElem?_eq_getElem hrlt]
  refine ⟨by simpa [Playfield.setTile] using hlen, ?_⟩
  intro rowList hmem
  simp only [Playfield.setTile] at hmem
  rcases List.mem_or_eq_of_mem_set hmem with h | h
  · exact hrows _ h
  · subst h
    show ((pf.tile_array.getD row []).set column t).length = pf.shape_columns
    rw [List.length_set, hrowD]
    exact hrows _ (List.getElem_mem hrlt)

@[simp] theorem Playfield.blytCore_shape_rows (pf : Playfield) (column row : Nat)
    (srf : Img) : (pf.blytCore column row srf).shape_rows = pf.shape_rows := rfl

@[simp] theorem Playfield.blytCore_shape_columns (pf : Playfield) (column row : Nat)
    (srf : Img) : (pf.blytCore column row srf).shape_columns = pf.shape_columns := rfl

@[simp] theorem Playfield.blytCore_spawn_row (pf : Playfield) (column row : Nat)
    (srf : Img) : (pf.blytCore column row srf).spawn_row = pf.spawn_row := rfl

@[simp] theorem Playfield.blytCore_spawn_column (pf : Playfield) (column row : Nat)
    (srf : Img) : (pf.blytCore column row srf).spawn_column = pf.spawn_column := rfl

@[simp] theorem Playfield.blytCore_empty_tile_img (pf : Playfield) (column row : Nat)
    (srf : Img) : (pf.blytCore column row srf).empty_tile_img = pf.empty_tile_img := rfl

@[simp] theorem Playfield.blytCore_rects (pf : Playfield) (column row : Nat)
    (srf : Img) : (pf.blytCore column row srf).rects_to_update
      = pf.rects_to_update.appendr (pf.getTile row column).rect := rfl

theorem Playfield.blytCore_wf (pf : Playfield) (column row : Nat) (srf : Img)
    (hwf : pf.wf) (hr : row < pf.shape_rows) : (pf.blytCore column row srf).wf :=
  Playfield.setTile_wf pf row column _ hwf hr

theorem Playfield.getTile_blytCore (pf : Playfield) (column row : Nat) (srf : Img)
    (hwf : pf.wf) (hr : row < pf.shape_rows) (hc : column < pf.shape_columns)
    (r' c' : Nat) :
    (pf.blytCore column row srf).getTile r' c' =
      if r' = row ∧ c' = column then
        { pf.getTile row column with hold := (pf.getTile row column).hold ++ [srf] }
      else pf.getTile r' c' := by
  have harr : (pf.blytCore column row srf).getTile r' c'
      = (pf.setTile row column
          { pf.getTile row column with
              hold := (pf.getTile row column).hold ++ [srf] }).getTile r' c' := rfl
  rw [harr, Playfield.getTile_setTile _ _ _ _ hwf hr hc]

@[simp] theorem Playfield.blytSeq_nil (pf : Playfield) (img : Img) :
    pf.blytSeq [] img = pf := rfl

@[simp] theorem Playfield.blytSeq_cons (pf : Playfield) (rc : Nat × Nat)
    (cells : List (Nat × Nat)) (img : Img) :
    pf.blytSeq (rc :: cells) img = (pf.blytCore rc.2 rc.1 img).blytSeq cells img := rfl

theorem Playfield.blytSeq_shape_rows (pf : Playfield) (cells : List (Nat × Nat))
    (img : Img) : (pf.blytSeq cells img).shape_rows = pf.shape_rows := by
  induction cells generalizing pf with
  | nil => rfl
  | cons rc cells ih => simp [ih]

theorem Playfield.blytSeq_shape_columns (pf : Playfield) (cells : List (Nat × Nat))
    (img : Img) : (pf.blytSeq cells img).shape_columns = pf.shape_columns := by
  induction cells generalizing pf with
  | nil => rfl
  | cons rc cells ih => simp [ih]

theorem Playfield.blytSeq_spawn_row (pf : Playfield) (cells : List (Nat × Nat))
    (img : Img) : (pf.blytSeq cells img).spawn_row = pf.spawn_row := by
  induction cells generalizing pf with
  | nil => rfl
  | cons rc cells ih => simp [ih]

theorem Playfield.blytSeq_spawn_column (pf : Playfield) (cells : List (Nat × Nat))
    (img : Img) : (pf.blytSeq cells img).spawn_column = pf.spawn_column := by
  induction cells generalizing pf with
  | nil => rfl
  | cons rc cells ih => simp [ih]

theorem Playfield.blytSeq_empty_tile_img (pf : Playfield) (cells : List (Nat × Nat))
    (img : Img) : (pf.blytSeq cells img).empty_tile_img = pf.empty_tile_img := by
  induction cells generalizing pf with
  | nil => rfl
  | cons rc cells ih => simp [ih]

theorem Playfield.blytSeq_wf (pf : Playfield) (cells : List (Nat × Nat)) (img : Img)
    (hwf : pf.wf) (hcells : ∀ rc ∈ cells, rc.1 < pf.shape_rows) :
    (pf.blytSeq cells img).wf := by
  induction cells generalizing pf with
  | nil => simpa using hwf
  | cons rc cells ih =>
    simp only [Playfield.blytSeq_cons]
    refine ih _ (Playfield.blytCore_wf _ _ _ _ hwf (hcells rc (by simp))) ?_
    intro rc' h
    simpa using hcells rc' (List.mem_cons_of_mem _ h)

@[simp] theorem cellCount_nil (rc : Nat × Nat) : cellCount rc [] = 0 := rfl

theorem cellCount_cons (rc x : Nat × Nat) (cells : List (Nat × Nat)) :
    cellCount rc (x :: cells) = cellCount rc cells + if x = rc then 1 else 0 := by
  by_cases h : x = rc <;> simp [cellCount, List.filter_cons, h]

theorem cellCount_eq_zero (rc : Nat × Nat) (l : List (Nat × Nat)) (h : rc ∉ l) :
    cellCount rc l = 0 := by
  induction l with
  | nil => rfl
  | cons x l ih =>
    rw [cellCount_cons]
    have hx : ¬(x = rc) := fun he => h (he ▸ List.mem_cons_self x l)
    have hr : rc ∉ l := fun hm => h (List.mem_cons_of_mem _ hm)
    simp [hx, ih hr]

theorem cellCount_eq_one (rc : Nat × Nat) (l : List (Nat × Nat)) (hnd : l.Nodup)
    (hm : rc ∈ l) : cellCount rc l = 1 := by
  induction l with
  | nil => simp at hm
  | cons x l ih =>
    rw [cellCount_cons]
    rcases List.mem_cons.1 hm with h | h
    · subst h
      have hnot : rc ∉ l := (List.nodup_cons.1 hnd).1
      simp [cellCount_eq_zero rc l hnot]
    · have hx : ¬(x = rc) := by
        intro he
        subst he
        exact (List.nodup_cons.1 hnd).1 h
      simp [hx, ih (List.nodup_cons.1 hnd).2 h]

theorem Playfield.blytSeq_getTile (pf : Playfield) (cells : List (Nat × Nat)) (img : Img)
    (hwf : pf.wf)
    (hcells : ∀ rc ∈ cells, rc.1 < pf.shape_rows ∧ rc.2 < pf.shape_columns)
    (r c : Nat) :
    ((pf.blytSeq cells img).getTile r c).hold
        = (pf.getTile r c).hold ++ List.replicate (cellCount (r, c) cells) img ∧
    ((pf.blytSeq cells img).getTile r c).rect = (pf.getTile r c).rect := by
  induction cells generalizing pf with
  | nil => simp
  | cons rc cells ih =>
    obtain ⟨a, b⟩ := rc
    obtain ⟨hr, hc⟩ := hcells (a, b) (by simp)
    have hwf1 : (pf.blytCore b a img).wf := Playfield.blytCore_wf _ _ _ _ hwf hr
    have hcells1 : ∀ rc' ∈ cells, rc'.1 < (pf.blytCore b a img).shape_rows ∧
        rc'.2 < (pf.blytCore b a img).shape_columns := by
      intro rc' h
      simpa using hcells rc' (List.mem_cons_of_mem _ h)
    have hstep := Playfield.getTile_blytCore pf b a img hwf hr hc r c
    obtain ⟨ih1, ih2⟩ := ih (pf.blytCore b a img) hwf1 hcells1
    simp only [Playfield.blytSeq_cons]
    refine ⟨?_, ?_⟩
    · rw [ih1, hstep]
      by_cases h : r = a ∧ c = b
      · obtain ⟨h1, h2⟩ := h
        subst h1; subst h2
        simp [cellCount_cons, List.append_assoc, List.replicate_succ]
      · have hne : ¬((a, b) = (r, c)) := by
          simp only [Prod.mk.injEq]
          intro ⟨e1, e2⟩
          exact h ⟨e1.symm, e2.symm⟩
        simp [h, cellCount_cons, hne]
    · rw [ih2, hstep]
      by_cases h : r = a ∧ c = b
      · obtain ⟨h1, h2⟩ := h
        subst h1; subst h2
        simp
      · simp [h]

theorem Playfield.blytSeq_rects (pf : Playfield) (cells : List (Nat × Nat)) (img : Img)
    (hwf : pf.wf)
    (hcells : ∀ rc ∈ cells, rc.1 < pf.shape_rows ∧ rc.2 < pf.shape_columns)
    (hpeak : pf.rects_to_update.items.length ≤ pf.rects_to_update.max_items) :
    (pf.blytSeq cells img).rects_to_update.items
        = pf.rects_to_update.items ++ cells.map (fun rc => (pf.getTile rc.1 rc.2).rect) ∧
    (pf.blytSeq cells img).rects_to_update.added_items
        = pf.rects_to_update.added_items + cells.length ∧
    (pf.blytSeq cells img).rects_to_update.max_items
        = max pf.rects_to_update.max_items
            (pf.rects_to_update.items.length + cells.length) := by
  induction cells generalizing pf with
  | nil =>
    refine ⟨by simp, by simp, ?_⟩
    have h : pf.blytSeq [] img = pf := rfl
    rw [h]
    simp only [List.length_nil, Nat.add_zero]
    exact (Nat.max_eq_left hpeak).symm
  | cons rc cells ih =>
    obtain ⟨a, b⟩ := rc
    obtain ⟨hr, hc⟩ := hcells (a, b) (by simp)
    have hwf1 : (pf.blytCore b a img).wf := Playfield.blytCore_wf _ _ _ _ hwf hr
    have hcells1 : ∀ rc' ∈ cells, rc'.1 < (pf.blytCore b a img).shape_rows ∧
        rc'.2 < (pf.blytCore b a img).shape_columns := by
      intro rc' h
      simpa using hcells rc' (List.mem_cons_of_mem _ h)
    have hrects1 : (pf.blytCore b a img).rects_to_update
        = ⟨pf.rects_to_update.items ++ [(pf.getTile a b).rect],
            max pf.rects_to_update.max_items (pf.rects_to_update.items.length + 1),
            pf.rects_to_update.added_items + 1⟩ := by
      rw [Playfield.blytCore_rects, Rectlist.appendr_eq]
    have hpeak1 : (pf.blytCore b a img).rects_to_update.items.length
        ≤ (pf.blytCore b a img).rects_to_update.max_items := by
      rw [hrects1]
      simp only [List.length_append, List.length_singleton]
      omega
    have hrectPres : ∀ rc' : Nat × Nat,
        ((pf.blytCore b a img).getTile rc'.1 rc'.2).rect = (pf.getTile rc'.1 rc'.2).rect := by
      intro rc'
      rw [Playfield.getTile_blytCore pf b a img hwf hr hc]
      by_cases h : rc'.1 = a ∧ rc'.2 = b
      · simp [h]
      · simp [h]
    obtain ⟨ih1, ih2, ih3⟩ := ih (pf.blytCore b a img) hwf1 hcells1 hpeak1
    simp only [Playfield.blytSeq_cons]
    refine ⟨?_, ?_, ?_⟩
    · rw [ih1, hrects1]
      have hmap : List.map (fun rc' => ((pf.blytCore b a img).getTile rc'.1 rc'.2).rect) cells
          = List.map (fun rc' => (pf.getTile rc'.1 rc'.2).rect) cells :=
        List.map_congr_left (fun rc' _ => hrectPres rc')
      simp [hmap]
    · rw [ih2, hrects1]
      simp only [List.length_cons]
      omega
    · rw [ih3, hrects1]
      simp only [List.length_append, List.length_singleton, List.length_cons,
        List.length_nil]
      omega

/-! ## The nested row/column loops as folds over the row-major cell list -/

theorem foldl_flatMap_eq {α β γ : Type} (l : List α) (f : α → List β) (g : γ → β → γ)
    (a : γ) : (l.flatMap f).foldl g a = l.foldl (fun acc x => (f x).foldl g acc) a := by
  induction l generalizing a with
  | nil => rfl
  | cons x l ih => simp [List.foldl_append, ih]

theorem Playfield.blit_initial_images_eq_blytSeq (pf : Playfield) (img : Img) :
    pf.blit_initial_images img
      = pf.blytSeq (rowMajorCells pf.shape_rows pf.shape_columns) img := by
  unfold Playfield.blit_initial_images Playfield.blytSeq rowMajorCells
  rw [foldl_flatMap_eq]
  congr 1
  funext acc x
  rw [List.foldl_map]

theorem Playfield.clear_all_tiles_eq_clearSeq (pf : Playfield) :
    pf.clear_all_tiles
      = pf.clearSeq (rowMajorCells pf.shape_rows pf.shape_columns) := by
  unfold Playfield.clear_all_tiles Playfield.clearSeq rowMajorCells
  rw [foldl_flatMap_eq]
  congr 1
  funext acc x
  rw [List.foldl_map]

theorem mem_rowMajorCells (rows columns : Nat) (rc : Nat × Nat) :
    rc ∈ rowMajorCells rows columns ↔ rc.1 < rows ∧ rc.2 < columns := by
  obtain ⟨r, c⟩ := rc
  simp [rowMajorCells, List.mem_flatMap]

theorem nodup_rowMajorCells (rows columns : Nat) :
    (rowMajorCells rows columns).Nodup := by
  unfold rowMajorCells
  rw [List.nodup_flatMap]
  constructor
  · intro r _
    have hinj : Function.Injective (fun c : Nat => (r, c)) :=
      fun c c' h => congrArg Prod.snd h
    exact hinj.comp (fun x y h => h) |>.comp (fun x y h => h) |> fun _ =>
      List.Nodup.map hinj (List.nodup_range columns)
  · have hp : List.Pairwise (· < ·) (List.range rows) := List.pairwise_lt_range rows
    refine hp.imp ?_
    intro r r' hlt
    intro x hx hx'
    simp only [List.mem_map, List.mem_range] at hx hx'
    obtain ⟨c, _, rfl⟩ := hx
    obtain ⟨c', _, he⟩ := hx'
    have : r' = r := congrArg Prod.fst he
    omega

theorem length_rowMajorCells (rows columns : Nat) :
    (rowMajorCells rows columns).length = rows * columns := by
  unfold rowMajorCells
  rw [List.length_flatMap]
  have hmap : List.map (List.length ∘ fun r => (List.range columns).map (fun c => (r, c)))
      (List.range rows) = List.map (fun _ => columns) (List.range rows) := by
    apply List.map_congr_left
    intro r _
    simp
  rw [hmap]
  induction rows with
  | zero => simp
  | succ n ih =>
    rw [List.range_succ]
    simp [ih]
    ring

theorem cellCount_rowMajorCells (rows columns : Nat) (rc : Nat × Nat)
    (hr : rc.1 < rows) (hc : rc.2 < columns) :
    cellCount rc (rowMajorCells rows columns) = 1 :=
  cellCount_eq_one rc _ (nodup_rowMajorCells rows columns)
    ((mem_rowMajorCells rows columns rc).2 ⟨hr, hc⟩)

theorem cellCount_rowMajorCells_out (rows columns : Nat) (rc : Nat × Nat)
    (h : ¬(rc.1 < rows ∧ rc.2 < columns)) :
    cellCount rc (rowMajorCells rows columns) = 0 :=
  cellCount_eq_zero rc _ (fun hm => h ((mem_rowMajorCells rows columns rc).1 hm))

/-! ## Construction: reshape and initial blits -/

theorem chunkRows_length (seq : List Tile) (rows columns : Nat) :
    (chunkRows seq rows columns).length = rows := by
  induction rows generalizing seq with
  | zero => rfl
  | succ n ih => simp [chunkRows, ih]

theorem chunkRows_row_length (seq : List Tile) (rows columns : Nat)
    (h : seq.length = rows * columns) :
    ∀ l ∈ chunkRows seq rows columns, l.length = columns := by
  induction rows generalizing seq with
  | zero => simp [chunkRows]
  | succ n ih =>
    intro l hl
    rw [Nat.succ_mul] at h
    simp only [chunkRows] at hl
    rcases List.mem_cons.1 hl with he | hm
    · subst he
      rw [List.length_take]
      omega
    · refine ih (seq.drop columns) ?_ l hm
      rw [List.length_drop]
      omega

theorem chunkRows_getD (seq : List Tile) (rows columns : Nat)
    (h : seq.length = rows * columns) (r c : Nat) (hr : r < rows) (hc : c < columns) :
    ((chunkRows seq rows columns).getD r []).getD c default
      = seq.getD (r * columns + c) default := by
  induction rows generalizing seq r with
  | zero => omega
  | succ n ih =>
    rw [Nat.succ_mul] at h
    have hstep : chunkRows seq (n + 1) columns
        = seq.take columns :: chunkRows (seq.drop columns) n columns := rfl
    cases r with
    | zero =>
      rw [hstep, List.getD_cons_zero, Nat.zero_mul, Nat.zero_add,
        List.getD_eq_getElem?_getD, List.getElem?_take_of_lt hc,
        ← List.getD_eq_getElem?_getD]
    | succ m =>
      rw [hstep, List.getD_cons_succ,
        ih (seq.drop columns) (by rw [List.length_drop]; omega) m (by omega),
        List.getD_eq_getElem?_getD, List.getElem?_drop,
        ← List.getD_eq_getElem?_getD]
      congr 1
      ring

theorem initBase_wf (rows columns : Nat) (seq : List Tile) (img : Img)
    (rl : Rectlist) (sr sc : Int) (h : seq.length = rows * columns) :
    (initBase rows columns seq img rl sr sc).wf :=
  ⟨chunkRows_length seq rows columns, chunkRows_row_length seq rows columns h⟩

theorem initBase_getTile (rows columns : Nat) (seq : List Tile) (img : Img)
    (rl : Rectlist) (sr sc : Int) (h : seq.length = rows * columns)
    (r c : Nat) (hr : r < rows) (hc : c < columns) :
    (initBase rows columns seq img rl sr sc).getTile r c
      = seq.getD (r * columns + c) default := by
  unfold initBase Playfield.getTile
  exact chunkRows_getD seq rows columns h r c hr hc

theorem Playfield.init_eq_ok (rows columns : Nat) (seq : List Tile) (img : Img)
    (rl : Rectlist) (sr sc : Int) (h : seq.length = rows * columns) :
    Playfield.init rows columns seq img rl sr sc
      = .ok ((initBase rows columns seq img rl sr sc).blit_initial_images img) := by
  unfold Playfield.init initBase
  rw [if_pos h]

theorem Playfield.init_eq_error (rows columns : Nat) (seq : List Tile) (img : Img)
    (rl : Rectlist) (sr sc : Int) (h : seq.length ≠ rows * columns) :
    Playfield.init rows columns seq img rl sr sc = .error "ShapeMismatch" := by
  unfold Playfield.init
  rw [if_neg h]

/-! ## Blitting through numpy indexing, and piece placement -/

theorem npIndex_inbounds (size : Nat) (i : Int) (h0 : 0 ≤ i) (h1 : i < (size : Int)) :
    npIndex size i = some i.toNat := by
  unfold npIndex
  rw [if_pos ⟨h0, h1⟩]

theorem npIndex_wrap (size : Nat) (i : Int) (h0 : -(size : Int) ≤ i) (h1 : i < 0) :
    npIndex size i = some (i + size).toNat := by
  unfold npIndex
  rw [if_neg (by omega), if_pos ⟨h0, h1⟩]

theorem npIndex_none (size : Nat) (i : Int)
    (h : i < -(size : Int) ∨ (size : Int) ≤ i) : npIndex size i = none := by
  unfold npIndex
  rw [if_neg (by omega), if_neg (by omega)]

theorem Playfield.blyt_ok (pf : Playfield) (column row : Int) (srf : Img)
    (hr0 : 0 ≤ row) (hr1 : row < (pf.shape_rows : Int))
    (hc0 : 0 ≤ column) (hc1 : column < (pf.shape_columns : Int)) :
    pf.blyt column row srf = .ok (pf.blytCore column.toNat row.toNat srf) := by
  unfold Playfield.blyt
  rw [npIndex_inbounds _ _ hr0 hr1, npIndex_inbounds _ _ hc0 hc1]

theorem Playfield.blyt_error (pf : Playfield) (column row : Int) (srf : Img)
    (h : row < -(pf.shape_rows : Int) ∨ (pf.shape_rows : Int) ≤ row ∨
         column < -(pf.shape_columns : Int) ∨ (pf.shape_columns : Int) ≤ column) :
    pf.blyt column row srf = .error "IndexError" := by
  unfold Playfield.blyt
  by_cases hrow : row < -(pf.shape_rows : Int) ∨ (pf.shape_rows : Int) ≤ row
  · rw [npIndex_none _ _ hrow]
  · have hcol : column < -(pf.shape_columns : Int) ∨ (pf.shape_columns : Int) ≤ column := by
      tauto
    rw [npIndex_none _ _ hcol]
    cases npIndex pf.shape_rows row <;> rfl

theorem draw_loop_ok (img : Img) (d : Int) (ms : List Mino) (pf : Playfield)
    (hb : ∀ m ∈ ms,
      0 ≤ pf.spawn_row + m.row + d ∧
      pf.spawn_row + m.row + d < (pf.shape_rows : Int) ∧
      0 ≤ pf.spawn_column + m.column ∧
      pf.spawn_column + m.column < (pf.shape_columns : Int)) :
    ms.foldlM
        (fun a mino => a.blyt (a.spawn_column + mino.column) (a.spawn_row + mino.row + d) img)
        pf
      = .ok (pf.blytSeq
          (ms.map (fun m => ((pf.spawn_row + m.row + d).toNat,
            (pf.spawn_column + m.column).toNat))) img) := by
  induction ms generalizing pf with
  | nil => rfl
  | cons m ms ih =>
    obtain ⟨h1, h2, h3, h4⟩ := hb m (List.mem_cons_self m ms)
    rw [List.foldlM_cons, Playfield.blyt_ok pf _ _ img h1 h2 h3 h4]
    have hbind : (Except.ok (ε := String)
        (pf.blytCore (pf.spawn_column + m.column).toNat (pf.spawn_row + m.row + d).toNat img)
        >>= fun b => ms.foldlM
          (fun a mino =>
            a.blyt (a.spawn_column + mino.column) (a.spawn_row + mino.row + d) img) b)
      = ms.foldlM
          (fun a mino =>
            a.blyt (a.spawn_column + mino.column) (a.spawn_row + mino.row + d) img)
          (pf.blytCore (pf.spawn_column + m.column).toNat (pf.spawn_row + m.row + d).toNat img) := rfl
    rw [hbind]
    set pf1 := pf.blytCore (pf.spawn_column + m.column).toNat
      (pf.spawn_row + m.row + d).toNat img with hpf1
    have hb1 : ∀ m' ∈ ms,
        0 ≤ pf1.spawn_row + m'.row + d ∧
        pf1.spawn_row + m'.row + d < (pf1.shape_rows : Int) ∧
        0 ≤ pf1.spawn_column + m'.column ∧
        pf1.spawn_column + m'.column < (pf1.shape_columns : Int) := by
      intro m' hm'
      simpa [hpf1] using hb m' (List.mem_cons_of_mem _ hm')
    rw [ih pf1 hb1]
    have hmap : ms.map (fun m' => ((pf1.spawn_row + m'.row + d).toNat,
          (pf1.spawn_column + m'.column).toNat))
        = ms.map (fun m' => ((pf.spawn_row + m'.row + d).toNat,
          (pf.spawn_column + m'.column).toNat)) := by
      apply List.map_congr_left
      intro m' _
      simp [hpf1]
    rw [hmap, List.map_cons, Playfield.blytSeq_cons]

/-! ## Clearing -/

@[simp] theorem Playfield.clearSeq_nil (pf : Playfield) : pf.clearSeq [] = pf := rfl

@[simp] theorem Playfield.clearSeq_cons (pf : Playfield) (rc : Nat × Nat)
    (cells : List (Nat × Nat)) :
    pf.clearSeq (rc :: cells) = (pf.clearTile rc.2 rc.1).clearSeq cells := rfl

@[simp] theorem Playfield.clearTile_shape_rows (pf : Playfield) (column row : Nat) :
    (pf.clearTile column row).shape_rows = pf.shape_rows := by
  unfold Playfield.clearTile
  split <;> rfl

@[simp] theorem Playfield.clearTile_shape_columns (pf : Playfield) (column row : Nat) :
    (pf.clearTile column row).shape_columns = pf.shape_columns := by
  unfold Playfield.clearTile
  split <;> rfl

@[simp] theorem Playfield.clearTile_spawn_row (pf : Playfield) (column row : Nat) :
    (pf.clearTile column row).spawn_row = pf.spawn_row := by
  unfold Playfield.clearTile
  split <;> rfl

@[simp] theorem Playfield.clearTile_spawn_column (pf : Playfield) (column row : Nat) :
    (pf.clearTile column row).spawn_column = pf.spawn_column := by
  unfold Playfield.clearTile
  split <;> rfl

@[simp] theorem Playfield.clearTile_empty_tile_img (pf : Playfield) (column row : Nat) :
    (pf.clearTile column row).empty_tile_img = pf.empty_tile_img := by
  unfold Playfield.clearTile
  split <;> rfl

theorem Playfield.clearTile_wf (pf : Playfield) (column row : Nat)
    (hwf : pf.wf) (hr : row < pf.shape_rows) : (pf.clearTile column row).wf := by
  unfold Playfield.clearTile
  split
  · exact hwf
  · exact Playfield.blytCore_wf _ _ _ _
      (Playfield.setTile_wf pf row column _ hwf hr) hr

theorem Playfield.clearTile_getTile (pf : Playfield) (column row : Nat)
    (hwf : pf.wf) (hr : row < pf.shape_rows) (hc : column < pf.shape_columns)
    (r' c' : Nat) :
    (pf.clearTile column row).getTile r' c' =
      if (pf.getTile row column).is_empty then pf.getTile r' c'
      else if r' = row ∧ c' = column then
        { pf.getTile row column with hold := [pf.empty_tile_img] }
      else pf.getTile r' c' := by
  unfold Playfield.clearTile
  by_cases he : (pf.getTile row column).is_empty
  · rw [if_pos he, if_pos he]
  · rw [if_neg he, if_neg he]
    have hwf1 : (pf.setTile row column { pf.getTile row column with hold := [] }).wf :=
      Playfield.setTile_wf pf row column _ hwf hr
    rw [Playfield.getTile_blytCore _ _ _ _ hwf1 hr hc]
    by_cases hrc : r' = row ∧ c' = column
    · rw [if_pos hrc, if_pos hrc,
        Playfield.getTile_setTile pf row column _ hwf hr hc row column,
        if_pos ⟨rfl, rfl⟩]
      rfl
    · rw [if_neg hrc, if_neg hrc,
        Playfield.getTile_setTile pf row column _ hwf hr hc r' c', if_neg hrc]

theorem Playfield.clearSeq_id (pf : Playfield) (cells : List (Nat × Nat))
    (h : ∀ rc ∈ cells, (pf.getTile rc.1 rc.2).is_empty = true) :
    pf.clearSeq cells = pf := by
  induction cells with
  | nil => rfl
  | cons rc cells ih =>
    have h1 : pf.clearTile rc.2 rc.1 = pf := by
      unfold Playfield.clearTile
      rw [if_pos (h rc (List.mem_cons_self rc cells))]
    rw [Playfield.clearSeq_cons, h1]
    exact ih (fun rc' h' => h rc' (List.mem_cons_of_mem _ h'))

theorem bg_hold_of_empty (pf : Playfield) (hinv : pf.bgInv) (r c : Nat)
    (hr : r < pf.shape_rows) (hc : c < pf.shape_columns)
    (he : (pf.getTile r c).is_empty = true) :
    (pf.getTile r c).hold = [pf.empty_tile_img] := by
  obtain ⟨hne, hhead⟩ := hinv.2 r c hr hc
  unfold Tile.is_empty at he
  cases hh : (pf.getTile r c).hold with
  | nil => exact absurd hh hne
  | cons x rest =>
    rw [hh] at he hhead
    simp only [List.drop_succ_cons, List.drop_zero, List.isEmpty_iff] at he
    simp only [List.head?_cons, Option.some.injEq] at hhead
    rw [he, hhead]

theorem Playfield.clearTile_bgInv (pf : Playfield) (column row : Nat)
    (hinv : pf.bgInv) (hr : row < pf.shape_rows) (hc : column < pf.shape_columns) :
    (pf.clearTile column row).bgInv := by
  obtain ⟨hwf, htiles⟩ := hinv
  refine ⟨Playfield.clearTile_wf pf column row hwf hr, ?_⟩
  intro r c hr' hc'
  rw [Playfield.clearTile_shape_rows] at hr'
  rw [Playfield.clearTile_shape_columns] at hc'
  rw [Playfield.clearTile_getTile pf column row hwf hr hc r c]
  rw [Playfield.clearTile_empty_tile_img]
  by_cases he : (pf.getTile row column).is_empty
  · rw [if_pos he]
    exact htiles r c hr' hc'
  · rw [if_neg he]
    by_cases hrc : r = row ∧ c = column
    · rw [if_pos hrc]
      exact ⟨by simp, by simp⟩
    · rw [if_neg hrc]
      exact htiles r c hr' hc'

theorem Playfield.clearSeq_getTile (pf : Playfield) (cells : List (Nat × Nat))
    (hinv : pf.bgInv)
    (hcells : ∀ rc ∈ cells, rc.1 < pf.shape_rows ∧ rc.2 < pf.shape_columns)
    (r c : Nat) (hr : r < pf.shape_rows) (hc : c < pf.shape_columns) :
    ((pf.clearSeq cells).getTile r c).hold
      = if (r, c) ∈ cells then [pf.empty_tile_img] else (pf.getTile r c).hold := by
  induction cells generalizing pf with
  | nil => simp
  | cons rc cells ih =>
    obtain ⟨a, b⟩ := rc
    obtain ⟨ha, hb⟩ := hcells (a, b) (by simp)
    have hinv1 : (pf.clearTile b a).bgInv := Playfield.clearTile_bgInv pf b a hinv ha hb
    have hcells1 : ∀ rc' ∈ cells, rc'.1 < (pf.clearTile b a).shape_rows ∧
        rc'.2 < (pf.clearTile b a).shape_columns := by
      intro rc' h'
      simpa using hcells rc' (List.mem_cons_of_mem _ h')
    have hstep := Playfield.clearTile_getTile pf b a hinv.1 ha hb r c
    rw [Playfield.clearSeq_cons,
      ih (pf.clearTile b a) hinv1 hcells1 (by simpa using hr) (by simpa using hc),
      Playfield.clearTile_empty_tile_img, hstep]
    by_cases hmem : (r, c) ∈ cells
    · rw [if_pos hmem, if_pos (List.mem_cons_of_mem _ hmem)]
    · rw [if_neg hmem]
      by_cases hrc : r = a ∧ c = b
      · have hmem2 : (r, c) ∈ (a, b) :: cells := by
          obtain ⟨h1, h2⟩ := hrc
          subst h1; subst h2
          exact List.mem_cons_self _ _
        rw [if_pos hmem2]
        by_cases he : (pf.getTile a b).is_empty
        · rw [if_pos he]
          obtain ⟨h1, h2⟩ := hrc
          subst h1; subst h2
          exact bg_hold_of_empty pf hinv r c hr hc he
        · rw [if_neg he, if_pos hrc]
      · have hmem2 : (r, c) ∉ (a, b) :: cells := by
          intro hmm
          rcases List.mem_cons.1 hmm with h' | h'
          · exact hrc ⟨congrArg Prod.fst h', congrArg Prod.snd h'⟩
          · exact hmem h'
        rw [if_neg hmem2]
        by_cases he : (pf.getTile a b).is_empty
        · rw [if_pos he]
        · rw [if_neg he, if_neg hrc]

theorem Playfield.clearSeq_shape_rows (pf : Playfield) (cells : List (Nat × Nat)) :
    (pf.clearSeq cells).shape_rows = pf.shape_rows := by
  induction cells generalizing pf with
  | nil => rfl
  | cons rc cells ih => simp [ih]

theorem Playfield.clearSeq_shape_columns (pf : Playfield) (cells : List (Nat × Nat)) :
    (pf.clearSeq cells).shape_columns = pf.shape_columns := by
  induction cells generalizing pf with
  | nil => rfl
  | cons rc cells ih => simp [ih]

theorem Playfield.clearSeq_empty_tile_img (pf : Playfield) (cells : List (Nat × Nat)) :
    (pf.clearSeq cells).empty_tile_img = pf.empty_tile_img := by
  induction cells generalizing pf with
  | nil => rfl
  | cons rc cells ih => simp [ih]

theorem Playfield.clearSeq_bgInv (pf : Playfield) (cells : List (Nat × Nat))
    (hinv : pf.bgInv)
    (hcells : ∀ rc ∈ cells, rc.1 < pf.shape_rows ∧ rc.2 < pf.shape_columns) :
    (pf.clearSeq cells).bgInv := by
  induction cells generalizing pf with
  | nil => simpa using hinv
  | cons rc cells ih =>
    obtain ⟨ha, hb⟩ := hcells rc (by simp)
    rw [Playfield.clearSeq_cons]
    refine ih _ (Playfield.clearTile_bgInv pf rc.2 rc.1 hinv ha hb) ?_
    intro rc' h'
    simpa using hcells rc' (List.mem_cons_of_mem _ h')

/-! ## The background invariant holds in every reachable state -/

theorem npIndex_lt (size : Nat) (i : Int) (k : Nat) (h : npIndex size i = some k) :
    k < size := by
  unfold npIndex at h
  split_ifs at h with h1 h2 <;> simp only [Option.some.injEq] at h <;> omega

theorem Playfield.blyt_ok_inv (pf : Playfield) (column row : Int) (srf : Img)
    (pf' : Playfield) (h : pf.blyt column row srf = .ok pf') :
    ∃ r c, r < pf.shape_rows ∧ c < pf.shape_columns ∧ pf' = pf.blytCore c r srf := by
  unfold Playfield.blyt at h
  rcases hrow : npIndex pf.shape_rows row with _ | r <;>
    rcases hcol : npIndex pf.shape_columns column with _ | c <;>
    rw [hrow, hcol] at h <;>
    simp only [Except.ok.injEq] at h
  · cases h
  · cases h
  · cases h
  · exact ⟨r, c, npIndex_lt _ _ _ hrow, npIndex_lt _ _ _ hcol, h.symm⟩

theorem Playfield.blytCore_bgInv (pf : Playfield) (column row : Nat) (srf : Img)
    (hinv : pf.bgInv) (hr : row < pf.shape_rows) (hc : column < pf.shape_columns) :
    (pf.blytCore column row srf).bgInv := by
  obtain ⟨hwf, htiles⟩ := hinv
  refine ⟨Playfield.blytCore_wf _ _ _ _ hwf hr, ?_⟩
  intro r c hr' hc'
  rw [Playfield.blytCore_shape_rows] at hr'
  rw [Playfield.blytCore_shape_columns] at hc'
  rw [Playfield.getTile_blytCore _ _ _ _ hwf hr hc, Playfield.blytCore_empty_tile_img]
  by_cases hrc : r = row ∧ c = column
  · rw [if_pos hrc]
    obtain ⟨h1, h2⟩ := hrc
    subst h1; subst h2
    obtain ⟨hne, hhead⟩ := htiles r c hr' hc'
    refine ⟨by simp, ?_⟩
    cases hh : (pf.getTile r c).hold with
    | nil => exact absurd hh hne
    | cons x rest =>
      rw [hh] at hhead
      simp only [List.cons_append, List.head?_cons] at hhead ⊢
      exact hhead
  · rw [if_neg hrc]
    exact htiles r c hr' hc'

theorem rowMajor_index_lt (r c rows columns : Nat) (hr : r < rows) (hc : c < columns) :
    r * columns + c < rows * columns := by
  calc r * columns + c < r * columns + columns := by omega
    _ = (r + 1) * columns := by ring
    _ ≤ rows * columns := Nat.mul_le_mul_right columns (by omega)

theorem Playfield.init_spec (rows columns : Nat) (seq : List Tile) (img : Img)
    (rl : Rectlist) (sr sc : Int) (h : seq.length = rows * columns) :
    ∃ pf, Playfield.init rows columns seq img rl sr sc = .ok pf ∧
      pf.shape_rows = rows ∧ pf.shape_columns = columns ∧
      pf.spawn_row = sr ∧ pf.spawn_column = sc ∧
      pf.empty_tile_img = img ∧ pf.wf ∧
      ∀ r c, r < rows → c < columns →
        (pf.getTile r c).hold = (seq.getD (r * columns + c) default).hold ++ [img] ∧
        (pf.getTile r c).rect = (seq.getD (r * columns + c) default).rect := by
  rw [Playfield.init_eq_ok _ _ _ _ _ _ _ h]
  have hbwf : (initBase rows columns seq img rl sr sc).wf :=
    initBase_wf _ _ _ _ _ _ _ h
  have hcells : ∀ rc ∈ rowMajorCells rows columns,
      rc.1 < (initBase rows columns seq img rl sr sc).shape_rows ∧
      rc.2 < (initBase rows columns seq img rl sr sc).shape_columns := by
    intro rc hm
    exact (mem_rowMajorCells rows columns rc).1 hm
  have hsr : (initBase rows columns seq img rl sr sc).shape_rows = rows := rfl
  have hsc : (initBase rows columns seq img rl sr sc).shape_columns = columns := rfl
  refine ⟨_, rfl, ?_, ?_, ?_, ?_, ?_, ?_, ?_⟩
  · rw [Playfield.blit_initial_images_eq_blytSeq, Playfield.blytSeq_shape_rows]
    exact hsr
  · rw [Playfield.blit_initial_images_eq_blytSeq, Playfield.blytSeq_shape_columns]
    exact hsc
  · rw [Playfield.blit_initial_images_eq_blytSeq, Playfield.blytSeq_spawn_row]
    rfl
  · rw [Playfield.blit_initial_images_eq_blytSeq, Playfield.blytSeq_spawn_column]
    rfl
  · rw [Playfield.blit_initial_images_eq_blytSeq, Playfield.blytSeq_empty_tile_img]
    rfl
  · rw [Playfield.blit_initial_images_eq_blytSeq]
    exact Playfield.blytSeq_wf _ _ _ hbwf (fun rc hm => (hcells rc hm).1)
  · intro r c hr hc
    rw [Playfield.blit_initial_images_eq_blytSeq, hsr, hsc]
    obtain ⟨h1, h2⟩ := Playfield.blytSeq_getTile
      (initBase rows columns seq img rl sr sc) (rowMajorCells rows columns) img
      hbwf hcells r c
    rw [initBase_getTile rows columns seq img rl sr sc h r c hr hc] at h1 h2
    refine ⟨?_, h2⟩
    rw [h1, cellCount_rowMajorCells rows columns (r, c) hr hc]
    rfl

theorem Playfield.init_rects (rows columns : Nat) (seq : List Tile) (img : Img)
    (rl : Rectlist) (sr sc : Int) (h : seq.length = rows * columns)
    (hpeak : rl.items.length ≤ rl.max_items) (pf : Playfield)
    (hok : Playfield.init rows columns seq img rl sr sc = .ok pf) :
    pf.rects_to_update.items.length = rl.items.length + rows * columns ∧
    pf.rects_to_update.added_items = rl.added_items + rows * columns ∧
    pf.rects_to_update.max_items = max rl.max_items (rl.items.length + rows * columns) := by
  rw [Playfield.init_eq_ok _ _ _ _ _ _ _ h] at hok
  have hbwf : (initBase rows columns seq img rl sr sc).wf :=
    initBase_wf _ _ _ _ _ _ _ h
  have hcells : ∀ rc ∈ rowMajorCells rows columns,
      rc.1 < (initBase rows columns seq img rl sr sc).shape_rows ∧
      rc.2 < (initBase rows columns seq img rl sr sc).shape_columns := by
    intro rc hm
    exact (mem_rowMajorCells rows columns rc).1 hm
  obtain ⟨h1, h2, h3⟩ := Playfield.blytSeq_rects
    (initBase rows columns seq img rl sr sc) (rowMajorCells rows columns) img
    hbwf hcells hpeak
  injection hok with hok
  subst hok
  have hsr : (initBase rows columns seq img rl sr sc).shape_rows = rows := rfl
  have hsc : (initBase rows columns seq img rl sr sc).shape_columns = columns := rfl
  rw [Playfield.blit_initial_images_eq_blytSeq, hsr, hsc]
  refine ⟨?_, ?_, ?_⟩
  · rw [h1, List.length_append, List.length_map, length_rowMajorCells]
    rfl
  · rw [h2, length_rowMajorCells]
    rfl
  · rw [h3, length_rowMajorCells]
    rfl

theorem draw_loop_bgInv (img : Img) (d : Int) (ms : List Mino) :
    ∀ pf pf' : Playfield, pf.bgInv →
    ms.foldlM
        (fun a mino => a.blyt (a.spawn_column + mino.column) (a.spawn_row + mino.row + d) img)
        pf = .ok pf' →
    pf'.bgInv := by
  induction ms with
  | nil =>
    intro pf pf' hinv h
    simp only [List.foldlM_nil] at h
    cases h
    exact hinv
  | cons m ms ih =>
    intro pf pf' hinv h
    rw [List.foldlM_cons] at h
    cases hb : pf.blyt (pf.spawn_column + m.column) (pf.spawn_row + m.row + d) img with
    | error e =>
      rw [hb] at h
      exact absurd h (by simp [Bind.bind, Except.bind])
    | ok pf1 =>
      rw [hb] at h
      obtain ⟨r, c, hr, hc, hpf1⟩ := Playfield.blyt_ok_inv _ _ _ _ _ hb
      subst hpf1
      exact ih _ _ (Playfield.blytCore_bgInv _ _ _ _ hinv hr hc) h

theorem Reach.toBgInv (pf : Playfield) (h : Reach pf) : pf.bgInv := by
  induction h with
  | init rows columns seq img rl sr sc pf0 hfresh hok =>
    by_cases hlen : seq.length = rows * columns
    · obtain ⟨pf1, hok1, hrows, hcols, _, _, himg, hwf, htiles⟩ :=
        Playfield.init_spec rows columns seq img rl sr sc hlen
      rw [hok1] at hok
      injection hok with hok
      subst hok
      refine ⟨hwf, ?_⟩
      intro r c hr hc
      rw [hrows] at hr
      rw [hcols] at hc
      obtain ⟨hh, _⟩ := htiles r c hr hc
      have hlt : r * columns + c < seq.length := by
        rw [hlen]
        exact rowMajor_index_lt r c rows columns hr hc
      have hmem : seq.getD (r * columns + c) default ∈ seq := by
        rw [List.getD_eq_getElem?_getD, List.getElem?_eq_getElem hlt]
        exact List.getElem_mem hlt
      have hfr : (seq.getD (r * columns + c) default).hold = [] := hfresh _ hmem
      rw [hh, hfr, himg]
      exact ⟨by simp, by simp⟩
    · rw [Playfield.init_eq_error _ _ _ _ _ _ _ hlen] at hok
      cases hok
  | blyt pf column row img pf' hre hok ih =>
    obtain ⟨r, c, hr, hc, hpf'⟩ := Playfield.blyt_ok_inv _ _ _ _ _ hok
    subst hpf'
    exact Playfield.blytCore_bgInv _ _ _ _ ih hr hc
  | clear pf hre ih =>
    rw [Playfield.clear_all_tiles_eq_clearSeq]
    exact Playfield.clearSeq_bgInv _ _ ih (fun rc hm => (mem_rowMajorCells _ _ rc).1 hm)
  | draw pf t pf' hre hok ih =>
    exact draw_loop_bgInv t.img t.spawn_offset t.minoes pf pf' ih hok

/-! ## Claim theorems -/

/-- C6: between two peak-resets, `max_items` is monotonically non-decreasing
across every sequence of append, extend and drain operations; after every such
operation it is at least the current number of pending rectangles; and
`added_items` is incremented by every successful append, including appends that
do not raise the peak. -/
theorem tracker_counters_invariant :
    (∀ (r : Rectlist) (op : TrackOp), r.max_items ≤ (op.apply r).max_items) ∧
    (∀ (r : Rectlist) (ops : List TrackOp),
      r.max_items ≤ (ops.foldl (fun a op => op.apply a) r).max_items) ∧
    (∀ (r : Rectlist) (op : TrackOp),
      (op.apply r).items.length ≤ (op.apply r).max_items) ∧
    (∀ (r : Rectlist) (item : Rect),
      (r.appendr item).added_items = r.added_items + 1) := by
  have hmono : ∀ (r : Rectlist) (op : TrackOp), r.max_items ≤ (op.apply r).max_items := by
    intro r op
    cases op with
    | append item => rw [TrackOp.apply, Rectlist.appendr_eq]; simp
    | extend itr => rw [TrackOp.apply, Rectlist.extendr_eq]; simp
    | drainOp => exact Nat.le_refl _
  refine ⟨hmono, ?_, ?_, ?_⟩
  · intro r ops
    induction ops generalizing r with
    | nil => exact Nat.le_refl _
    | cons op ops ih =>
      exact Nat.le_trans (hmono r op) (ih (op.apply r))
  · intro r op
    cases op with
    | append item =>
      rw [TrackOp.apply, Rectlist.appendr_eq]
      simp
    | extend itr =>
      rw [TrackOp.apply, Rectlist.extendr_eq]
      simp
    | drainOp => exact Nat.zero_le _
  · intro r item
    rw [Rectlist.appendr_eq]

/-- C5 (corrected, counterexample): on a tracker whose peak has been reset
below its current length, `extendr` with the empty batch raises the peak while
zero single appends leave the tracker untouched, so the two disagree. -/
theorem extendr_empty_batch_counterexample :
    Rectlist.extendr ⟨[5], 0, 1⟩ [] ≠ List.foldl Rectlist.appendr ⟨[5], 0, 1⟩ [] := by
  decide

/-- C5 (amended): `extendr` leaves the tracker in exactly the state of the
corresponding repeated `appendr` calls for every non-empty batch, and for the
empty batch as well whenever the peak is at least the current length (as is the
case in every state not freshly peak-reset below its length). -/
theorem extendr_eq_repeated_appendr (r : Rectlist) (itr : List Rect)
    (h : itr ≠ [] ∨ r.items.length ≤ r.max_items) :
    r.extendr itr = itr.foldl Rectlist.appendr r := by
  have hne : ∀ (xs : List Rect) (s : Rectlist), xs ≠ [] →
      xs.foldl Rectlist.appendr s
        = ⟨s.items ++ xs, max s.max_items (s.items.length + xs.length),
            s.added_items + xs.length⟩ := by
    intro xs
    induction xs with
    | nil => intro s hs; exact absurd rfl hs
    | cons x rest ih =>
      intro s _
      rcases rest with _ | ⟨y, ys⟩
      · rw [List.foldl_cons, List.foldl_nil, Rectlist.appendr_eq]
        simp
      · rw [List.foldl_cons, ih (s.appendr x) (by simp), Rectlist.appendr_eq]
        simp only [Rectlist.mk.injEq, List.length_cons, List.length_append,
          List.length_singleton, List.length_nil, List.append_assoc,
          List.singleton_append]
        refine ⟨trivial, by omega, by omega⟩
  cases hitr : itr with
  | nil =>
    rcases h with h | h
    · exact absurd hitr h
    · rw [Rectlist.extendr_eq]
      simp only [List.append_nil, List.length_nil, Nat.add_zero, List.foldl_nil]
      cases r with
      | mk items maxi added =>
        simp only at h ⊢
        congr 1
        omega
  | cons x rest =>
    rw [Rectlist.extendr_eq, hne (x :: rest) r (by simp)]

/-- C5 witness for the amended theorem: a concrete non-empty batch. -/
theorem extendr_eq_repeated_appendr_witness :
    (([3, 4] : List Rect) ≠ [] ∨ Rectlist.new.items.length ≤ Rectlist.new.max_items) ∧
    Rectlist.extendr Rectlist.new [3, 4] = List.foldl Rectlist.appendr Rectlist.new [3, 4] :=
  ⟨Or.inl (by decide), extendr_eq_repeated_appendr Rectlist.new [3, 4] (Or.inl (by decide))⟩

/-- C3: Playfield construction fails with the `ShapeMismatch` error (numpy's
reshape failure) exactly when the tile count differs from `rows * columns`,
never truncating or padding; on an exact count it succeeds with a row-major
`rows × columns` grid in which cell `(r, c)` is the `r * columns + c`-th
supplied tile, stamped with the background image. -/
theorem playfield_init_shape (rows columns : Nat) (seq : List Tile)
    (img : Img) (rl : Rectlist) (sr sc : Int) :
    (seq.length ≠ rows * columns →
      Playfield.init rows columns seq img rl sr sc = .error "ShapeMismatch") ∧
    (seq.length = rows * columns →
      ∃ pf, Playfield.init rows columns seq img rl sr sc = .ok pf ∧
        pf.shape_rows = rows ∧ pf.shape_columns = columns ∧
        pf.tile_array.length = rows ∧
        (∀ rowList ∈ pf.tile_array, rowList.length = columns) ∧
        ∀ r c, r < rows → c < columns →
          (pf.getTile r c).rect = (seq.getD (r * columns + c) default).rect ∧
          (pf.getTile r c).hold
            = (seq.getD (r * columns + c) default).hold ++ [img]) := by
  constructor
  · intro h
    exact Playfield.init_eq_error rows columns seq img rl sr sc h
  · intro h
    obtain ⟨pf, hok, hrows, hcols, _, _, _, hwf, htiles⟩ :=
      Playfield.init_spec rows columns seq img rl sr sc h
    refine ⟨pf, hok, hrows, hcols, ?_, ?_, ?_⟩
    · rw [hwf.1, hrows]
    · intro rowList hm
      rw [hwf.2 rowList hm, hcols]
    · intro r c hr hc
      obtain ⟨h1, h2⟩ := htiles r c hr hc
      exact ⟨h2, h1⟩

/-- C3 witness: a 2 × 2 grid rejects 3 tiles with `ShapeMismatch`. -/
theorem playfield_init_shape_witness :
    (freshTiles 3).length ≠ 2 * 2 ∧
    Playfield.init 2 2 (freshTiles 3) 9 Rectlist.new 0 0 = .error "ShapeMismatch" :=
  ⟨by decide,
    (playfield_init_shape 2 2 (freshTiles 3) 9 Rectlist.new 0 0).1 (by decide)⟩

/-- C4: constructing a Playfield of `rows * columns` tiles over a fresh
tracker leaves the tracker with `rows * columns` pending rectangles and both
`added_items` and `max_items` equal to `rows * columns`; a subsequent drain
empties the pending sequence without touching either counter; and draining an
already-empty tracker is a no-op returning the empty sequence. -/
theorem init_tracker_conservation (rows columns : Nat) (seq : List Tile)
    (img : Img) (sr sc : Int) (pf : Playfield)
    (h : seq.length = rows * columns)
    (hok : Playfield.init rows columns seq img Rectlist.new sr sc = .ok pf) :
    pf.rects_to_update.items.length = rows * columns ∧
    pf.rects_to_update.added_items = rows * columns ∧
    pf.rects_to_update.max_items = rows * columns ∧
    pf.rects_to_update.drain.1.length = rows * columns ∧
    pf.rects_to_update.drain.2.items = [] ∧
    pf.rects_to_update.drain.2.added_items = rows * columns ∧
    pf.rects_to_update.drain.2.max_items = rows * columns ∧
    (∀ t : Rectlist, t.items = [] → t.drain = ([], t)) := by
  obtain ⟨h1, h2, h3⟩ := Playfield.init_rects rows columns seq img Rectlist.new
    sr sc h (by decide) pf hok
  have h1' : pf.rects_to_update.items.length = rows * columns := by
    rw [h1]
    simp [Rectlist.new]
  have h2' : pf.rects_to_update.added_items = rows * columns := by
    rw [h2]
    simp [Rectlist.new]
  have h3' : pf.rects_to_update.max_items = rows * columns := by
    rw [h3]
    simp [Rectlist.new]
  refine ⟨h1', h2', h3', ?_, rfl, h2', h3', ?_⟩
  · show pf.rects_to_update.items.length = rows * columns
    exact h1'
  · intro t ht
    cases t with
    | mk items mx ad =>
      simp only at ht
      subst ht
      rfl

/-- C4 witness: the concrete 2 × 2 construction. -/
theorem init_tracker_conservation_witness :
    (freshTiles 4).length = 2 * 2 ∧
    (pfC2.rects_to_update.items.length = 2 * 2 ∧
     pfC2.rects_to_update.added_items = 2 * 2 ∧
     pfC2.rects_to_update.max_items = 2 * 2 ∧
     pfC2.rects_to_update.drain.1.length = 2 * 2 ∧
     pfC2.rects_to_update.drain.2.items = [] ∧
     pfC2.rects_to_update.drain.2.added_items = 2 * 2 ∧
     pfC2.rects_to_update.drain.2.max_items = 2 * 2 ∧
     (∀ t : Rectlist, t.items = [] → t.drain = ([], t))) :=
  ⟨by decide,
    init_tracker_conservation 2 2 (freshTiles 4) 9 0 0 pfC2 (by decide) (by rfl)⟩

theorem randint06_le (s : Nat) : (randint06 s).1 ≤ 6 := by
  show (1103515245 * s + 12345) % 2 ^ 31 % 7 ≤ 6
  have h : (1103515245 * s + 12345) % 2 ^ 31 % 7 < 7 := Nat.mod_lt _ (by norm_num)
  omega

theorem draws_le (u : Unpacker) (n : Nat) : ∀ v ∈ u.draws n, v ≤ 6 := by
  induction n generalizing u with
  | zero => intro v hv; cases hv
  | succ m ih =>
    intro v hv
    rw [Unpacker.draws] at hv
    rcases List.mem_cons.1 hv with h | h
    · rw [h]
      exact randint06_le u.state
    · exact ih _ v h

/-- C9: with the `no_rules` supply policy over the `randint06` uniform source
on `[0, 6]` (variant count 7), every draw of `spawn_next` — for any number of
draws — returns a variant index in `[0, 6]`, and each draw advances the
generator's random-source state to the source's successor state. -/
theorem spawn_next_range (u : Unpacker) (n : Nat) :
    (∀ v ∈ u.draws n, v ≤ 6) ∧
    (u.spawn_next).2.state = (randint06 u.state).2 ∧
    (u.spawn_next).1 = (randint06 u.state).1 ∧
    (randint06 u.state).1 ≤ 6 :=
  ⟨draws_le u n, rfl, rfl, randint06_le u.state⟩

/-- C9 witness: the first draw from state 0 is 4, inside `[0, 6]`. -/
theorem spawn_next_range_witness :
    4 ∈ (Unpacker.mk 0).draws 1 ∧ 4 ≤ 6 :=
  ⟨by decide, (spawn_next_range (Unpacker.mk 0) 1).1 4 (by decide)⟩

/-- C8: after `N` further blits onto one tile (any images), its hold grows by
exactly `N` entries, and `is_empty` is true exactly when the hold has at most
one entry — so it turns false once any post-background blit has happened. -/
theorem tile_hold_roundtrip (pf : Playfield) (r c : Nat) (imgs : List Img)
    (hwf : pf.wf) (hr : r < pf.shape_rows) (hc : c < pf.shape_columns) :
    (((imgs.foldl (fun a i => a.blytCore c r i) pf).getTile r c).hold.length
        = (pf.getTile r c).hold.length + imgs.length) ∧
    (∀ t : Tile, t.is_empty = true ↔ t.hold.length ≤ 1) := by
  have hiff : ∀ t : Tile, t.is_empty = true ↔ t.hold.length ≤ 1 := by
    intro t
    cases ht : t.hold with
    | nil => simp [Tile.is_empty, ht]
    | cons x rest => simp [Tile.is_empty, ht, List.isEmpty_iff, List.length_eq_zero]
  refine ⟨?_, hiff⟩
  induction imgs generalizing pf with
  | nil => simp
  | cons i imgs ih =>
    rw [List.foldl_cons]
    have hwf1 : (pf.blytCore c r i).wf := Playfield.blytCore_wf _ _ _ _ hwf hr
    have hstep := Playfield.getTile_blytCore pf c r i hwf hr hc r c
    rw [if_pos ⟨rfl, rfl⟩] at hstep
    rw [ih (pf.blytCore c r i) hwf1 (by simpa using hr) (by simpa using hc), hstep]
    simp only [List.length_append, List.length_singleton, List.length_cons,
      List.length_nil]
    omega

/-- C8 witness: two blits onto cell (0, 1) of the concrete 2 × 2 playfield. -/
theorem tile_hold_roundtrip_witness :
    pfC2.wf ∧ 0 < pfC2.shape_rows ∧ 1 < pfC2.shape_columns ∧
    (((([7, 8] : List Img).foldl (fun a i => a.blytCore 1 0 i) pfC2).getTile 0 1).hold.length
        = (pfC2.getTile 0 1).hold.length + ([7, 8] : List Img).length ∧
     (∀ t : Tile, t.is_empty = true ↔ t.hold.length ≤ 1)) :=
  ⟨⟨by decide, by decide⟩, by decide, by decide,
    tile_hold_roundtrip pfC2 0 1 [7, 8] ⟨by decide, by decide⟩ (by decide) (by decide)⟩

/-- C2 (counterexample): on the concrete 2 × 2 playfield, `blit_at(-1, 0, img)`
does not fail at all — numpy index wrapping silently blits onto the tile in
row 0's last column — and the grid is modified, contradicting the claim that
it fails with `OutOfBounds` leaving grid and tracker unmodified. -/
theorem blyt_out_of_bounds_counterexample :
    (pfC2.blyt (-1) 0 7).toOption = some (pfC2.blytCore 1 0 7) ∧
    (pfC2.blytCore 1 0 7).tile_array ≠ pfC2.tile_array := by
  constructor
  · decide
  · decide

/-- C2 (amended): `blyt` performs no explicit bounds check; numpy indexing
rules apply.  An index in `[-size, 0)` wraps, so `blit_at(-1, 0, img)`
succeeds and blits onto the last column of row 0, modifying that tile's hold
and appending a rectangle; an index outside `[-size, size)` raises
`IndexError` before any mutation (the pure result carries no modified state),
so `blit_at(rows, 0, img)` fails exactly when `rows ≥ columns`. -/
theorem blyt_numpy_indexing (pf : Playfield) (img : Img) (hwf : pf.wf)
    (hr : 0 < pf.shape_rows) (hc : 0 < pf.shape_columns) :
    (∃ pf', pf.blyt (-1) 0 img = .ok pf' ∧
      (pf'.getTile 0 (pf.shape_columns - 1)).hold
        = (pf.getTile 0 (pf.shape_columns - 1)).hold ++ [img] ∧
      pf'.rects_to_update.items.length = pf.rects_to_update.items.length + 1) ∧
    (∀ column row : Int,
      (column < -(pf.shape_columns : Int) ∨ (pf.shape_columns : Int) ≤ column ∨
       row < -(pf.shape_rows : Int) ∨ (pf.shape_rows : Int) ≤ row) →
      pf.blyt column row img = .error "IndexError") ∧
    ((pf.shape_columns : Int) ≤ (pf.shape_rows : Int) →
      pf.blyt (pf.shape_rows : Int) 0 img = .error "IndexError") := by
  refine ⟨?_, ?_, ?_⟩
  · have hwrap : npIndex pf.shape_columns (-1)
        = some ((-1 + (pf.shape_columns : Int)).toNat) :=
      npIndex_wrap _ _ (by omega) (by omega)
    have hrow : npIndex pf.shape_rows 0 = some ((0 : Int).toNat) :=
      npIndex_inbounds _ _ (by omega) (by omega)
    have hb : pf.blyt (-1) 0 img
        = .ok (pf.blytCore ((-1 + (pf.shape_columns : Int)).toNat) 0 img) := by
      unfold Playfield.blyt
      rw [hrow, hwrap]
      rfl
    have hcnat : (-1 + (pf.shape_columns : Int)).toNat = pf.shape_columns - 1 := by
      omega
    rw [hcnat] at hb
    refine ⟨_, hb, ?_, ?_⟩
    · rw [Playfield.getTile_blytCore _ _ _ _ hwf hr (by omega),
        if_pos ⟨rfl, rfl⟩]
    · rw [Playfield.blytCore_rects, Rectlist.appendr_eq]
      simp
  · intro column row h
    exact Playfield.blyt_error pf column row img (by tauto)
  · intro h
    exact Playfield.blyt_error pf _ 0 img (Or.inr (Or.inr (Or.inr h)))

/-- C2 witness for the amended theorem: the 2 × 2 playfield. -/
theorem blyt_numpy_indexing_witness :
    pfC2.wf ∧ 0 < pfC2.shape_rows ∧ 0 < pfC2.shape_columns ∧
    (∃ pf', pfC2.blyt (-1) 0 7 = .ok pf' ∧
      (pf'.getTile 0 (pfC2.shape_columns - 1)).hold
        = (pfC2.getTile 0 (pfC2.shape_columns - 1)).hold ++ [7] ∧
      pf'.rects_to_update.items.length = pfC2.rects_to_update.items.length + 1) :=
  ⟨⟨by decide, by decide⟩, by decide, by decide,
    (blyt_numpy_indexing pfC2 7 ⟨by decide, by decide⟩ (by decide) (by decide)).1⟩

/-- C10: in every reachable playfield state — after construction, successful
blits, whole-field clears and piece placements — every tile's hold is
non-empty (`clear_all_tiles` re-stamps the background image onto each cleared
tile before touching the next one), and `Tile.is_empty` is total: on a bare
tile whose hold is empty it returns `true` instead of raising. -/
theorem reachable_holds_nonempty (pf : Playfield) (h : Reach pf) :
    (∀ r c, r < pf.shape_rows → c < pf.shape_columns →
      (pf.getTile r c).hold ≠ []) ∧
    (∀ rect : Rect, (Tile.mk rect []).is_empty = true) := by
  refine ⟨?_, fun rect => rfl⟩
  intro r c hr hc
  exact ((Reach.toBgInv pf h).2 r c hr hc).1

/-- C10 witness: the reachable 2 × 2 playfield. -/
theorem reachable_holds_nonempty_witness :
    Reach pfC2 ∧
    ((∀ r c, r < pfC2.shape_rows → c < pfC2.shape_columns →
      (pfC2.getTile r c).hold ≠ []) ∧
     (∀ rect : Rect, (Tile.mk rect []).is_empty = true)) :=
  ⟨Reach.init 2 2 (freshTiles 4) 9 Rectlist.new 0 0 pfC2 (by decide) rfl,
   reachable_holds_nonempty pfC2
     (Reach.init 2 2 (freshTiles 4) 9 Rectlist.new 0 0 pfC2 (by decide) rfl)⟩

/-- C7: from every reachable playfield state, one `clear_all_tiles` leaves
every tile's hold as exactly the background singleton, and a second
`clear_all_tiles` changes nothing (here it is even the identity on the whole
state, appending zero rectangles): calling it twice equals calling it once. -/
theorem clear_all_tiles_idempotent (pf : Playfield) (h : Reach pf) :
    (∀ r c, r < pf.shape_rows → c < pf.shape_columns →
      (pf.clear_all_tiles.getTile r c).hold = [pf.empty_tile_img]) ∧
    pf.clear_all_tiles.clear_all_tiles = pf.clear_all_tiles := by
  have hinv := Reach.toBgInv pf h
  have hcells : ∀ rc ∈ rowMajorCells pf.shape_rows pf.shape_columns,
      rc.1 < pf.shape_rows ∧ rc.2 < pf.shape_columns :=
    fun rc hm => (mem_rowMajorCells _ _ rc).1 hm
  have hfirst : ∀ r c, r < pf.shape_rows → c < pf.shape_columns →
      (pf.clear_all_tiles.getTile r c).hold = [pf.empty_tile_img] := by
    intro r c hr hc
    rw [Playfield.clear_all_tiles_eq_clearSeq,
      Playfield.clearSeq_getTile pf _ hinv hcells r c hr hc,
      if_pos ((mem_rowMajorCells _ _ (r, c)).2 ⟨hr, hc⟩)]
  refine ⟨hfirst, ?_⟩
  have hshape_r : pf.clear_all_tiles.shape_rows = pf.shape_rows := by
    rw [Playfield.clear_all_tiles_eq_clearSeq, Playfield.clearSeq_shape_rows]
  have hshape_c : pf.clear_all_tiles.shape_columns = pf.shape_columns := by
    rw [Playfield.clear_all_tiles_eq_clearSeq, Playfield.clearSeq_shape_columns]
  rw [Playfield.clear_all_tiles_eq_clearSeq pf.clear_all_tiles]
  apply Playfield.clearSeq_id
  intro rc hm
  have hb := (mem_rowMajorCells _ _ rc).1 hm
  rw [hshape_r, hshape_c] at hb
  have hhold := hfirst rc.1 rc.2 hb.1 hb.2
  unfold Tile.is_empty
  rw [hhold]
  rfl

/-- C7 witness: the reachable 4 × 8 playfield. -/
theorem clear_all_tiles_idempotent_witness :
    Reach pfI ∧
    ((∀ r c, r < pfI.shape_rows → c < pfI.shape_columns →
      (pfI.clear_all_tiles.getTile r c).hold = [pfI.empty_tile_img]) ∧
     pfI.clear_all_tiles.clear_all_tiles = pfI.clear_all_tiles) :=
  ⟨Reach.init 4 8 (freshTiles 32) 9 Rectlist.new 3 4 pfI (by decide) rfl,
   clear_all_tiles_idempotent pfI
     (Reach.init 4 8 (freshTiles 32) 9 Rectlist.new 3 4 pfI (by decide) rfl)⟩

/-- C1: `draw_tetromino` blits the piece's image once per mino at grid cell
`(spawn_row + mino.row + spawn_offset, spawn_column + mino.column)`: when all
targets lie inside the grid it succeeds, every grid cell's hold gains one copy
of the image per mino targeting it, and the tracker gains one rectangle per
mino, in mino order; in particular an I piece (minoes (0,0),(0,1),(0,2),(0,3),
spawn offset 0) placed from spawn anchor (3, 4) gives each of the tiles
(3,4),(3,5),(3,6),(3,7) exactly one new hold entry and appends exactly 4
rectangles. -/
theorem draw_tetromino_places_minoes (pf : Playfield) (t : Tetromino)
    (hwf : pf.wf) (hb : targetsInBounds pf t)
    (hpeak : pf.rects_to_update.items.length ≤ pf.rects_to_update.max_items) :
    ∃ pf', pf.draw_tetromino t = .ok pf' ∧
      (∀ r c, r < pf.shape_rows → c < pf.shape_columns →
        (pf'.getTile r c).hold = (pf.getTile r c).hold
          ++ List.replicate (cellCount (r, c) (natTargets pf t)) t.img) ∧
      pf'.rects_to_update.items
        = pf.rects_to_update.items
          ++ (natTargets pf t).map (fun rc => (pf.getTile rc.1 rc.2).rect) ∧
      pf'.rects_to_update.added_items
        = pf.rects_to_update.added_items + t.minoes.length ∧
      (t = tetromino_I t.img → pf.spawn_row = 3 → pf.spawn_column = 4 →
        (∀ j, j < 4 →
          (pf'.getTile 3 (4 + j)).hold = (pf.getTile 3 (4 + j)).hold ++ [t.img]) ∧
        pf'.rects_to_update.items.length
          = pf.rects_to_update.items.length + 4) := by
  have hcells : ∀ rc ∈ natTargets pf t,
      rc.1 < pf.shape_rows ∧ rc.2 < pf.shape_columns := by
    intro rc hm
    unfold natTargets at hm
    obtain ⟨m, hmm, rfl⟩ := List.mem_map.1 hm
    obtain ⟨h1, h2, h3, h4⟩ := hb m hmm
    constructor
    · omega
    · omega
  have hdraw : pf.draw_tetromino t = .ok (pf.blytSeq (natTargets pf t) t.img) := by
    unfold Playfield.draw_tetromino natTargets
    exact draw_loop_ok t.img t.spawn_offset t.minoes pf hb
  have hholds := fun r c =>
    Playfield.blytSeq_getTile pf (natTargets pf t) t.img hwf hcells r c
  obtain ⟨hitems, hadded, _⟩ :=
    Playfield.blytSeq_rects pf (natTargets pf t) t.img hwf hcells hpeak
  have hlen : (natTargets pf t).length = t.minoes.length := by
    unfold natTargets
    rw [List.length_map]
  refine ⟨_, hdraw, fun r c _ _ => (hholds r c).1, hitems, by rw [hadded, hlen], ?_⟩
  intro ht h3 h4
  have hm : t.minoes = [⟨0, 0⟩, ⟨0, 1⟩, ⟨0, 2⟩, ⟨0, 3⟩] := by
    rw [ht]
    rfl
  have hd : t.spawn_offset = 0 := by
    rw [ht]
    rfl
  have htargets : natTargets pf t = [(3, 4), (3, 5), (3, 6), (3, 7)] := by
    unfold natTargets
    rw [hm, hd, h3, h4]
    decide
  have hrowlt : 3 < pf.shape_rows := by
    obtain ⟨h1, h2, _, _⟩ := hb ⟨0, 0⟩ (by rw [hm]; decide)
    rw [h3, hd] at h2
    simp only [] at h2
    omega
  constructor
  · intro j hj
    have hcollt : 4 + j < pf.shape_columns := by
      obtain ⟨_, _, h5, h6⟩ := hb ⟨0, (j : Int)⟩ (by
        rw [hm]
        interval_cases j <;> decide)
      rw [h4] at h6
      simp only [] at h6
      omega
    have hone : cellCount (3, 4 + j) (natTargets pf t) = 1 := by
      rw [htargets]
      interval_cases j <;> decide
    rw [(hholds 3 (4 + j)).1, hone]
    rfl
  · rw [hitems, List.length_append, List.length_map, hlen, hm]
    rfl

/-- C1 witness: the I piece placed on the concrete 4 × 8 playfield with spawn
anchor (3, 4). -/
theorem draw_tetromino_places_minoes_witness :
    pfI.wf ∧ targetsInBounds pfI (tetromino_I 7) ∧
    pfI.rects_to_update.items.length ≤ pfI.rects_to_update.max_items ∧
    (∃ pf', pfI.draw_tetromino (tetromino_I 7) = .ok pf' ∧
      (∀ r c, r < pfI.shape_rows → c < pfI.shape_columns →
        (pf'.getTile r c).hold = (pfI.getTile r c).hold
          ++ List.replicate (cellCount (r, c) (natTargets pfI (tetromino_I 7)))
              (tetromino_I 7).img) ∧
      pf'.rects_to_update.items
        = pfI.rects_to_update.items
          ++ (natTargets pfI (tetromino_I 7)).map
              (fun rc => (pfI.getTile rc.1 rc.2).rect) ∧
      pf'.rects_to_update.added_items
        = pfI.rects_to_update.added_items + (tetromino_I 7).minoes.length ∧
      (tetromino_I 7 = tetromino_I (tetromino_I 7).img →
        pfI.spawn_row = 3 → pfI.spawn_column = 4 →
        (∀ j, j < 4 →
          (pf'.getTile 3 (4 + j)).hold
            = (pfI.getTile 3 (4 + j)).hold ++ [(tetromino_I 7).img]) ∧
        pf'.rects_to_update.items.length
          = pfI.rects_to_update.items.length + 4)) :=
  ⟨⟨by decide, by decide⟩, by unfold targetsInBounds; decide, by decide,
    draw_tetromino_places_minoes pfI (tetromino_I 7) ⟨by decide, by decide⟩
      (by unfold targetsInBounds; decide) (by decide)⟩
